import Mathlib

/-!
Shallow embedding of the ungx dependency-rewrite tool.

The tool ships in two program variants, called modes below:
* the simple mode (`main.go`): vendor non-clashing packages under their
  canonical path and rewrite raw occurrences of the retired hash references;
* the embedding mode (the flag-capable variant): additionally embed gx-based
  and clashing packages under `gxlibs`, rewrite only quote-delimited
  references, substitute an optional fork identity for the root identity and
  strip `// import "..."` self-declaration markers.

File contents are modelled as `List Char` (the Go code manipulates byte
slices of source text). Filesystem, network and subprocess outcomes are
passed in as explicit values so that every decision procedure of the source
becomes a pure, executable Lean function.
-/

namespace Ungx

/-- The literal that opens a self-declaration marker, `// import "`.
It is the fixed part of the Go regular expression `// import ".*"`. -/
def markerLit : List Char := ['/', '/', ' ', 'i', 'm', 'p', 'o', 'r', 't', ' ', '\"']

/-- Replacement scan of Go's `bytes.Replace(s, old, new, -1)` for nonempty
`old`: scan left to right; on a match emit `new`, consume the match and
continue after it; otherwise emit one character and continue. The first
argument counts characters of a recognised match still to be consumed. -/
def replaceAux (p r : List Char) : Nat → List Char → List Char
  | _, [] => []
  | Nat.succ n, _ :: cs => replaceAux p r n cs
  | 0, c :: cs =>
    if p ≠ [] ∧ p.isPrefixOf (c :: cs) then
      r ++ replaceAux p r (p.length - 1) cs
    else
      c :: replaceAux p r 0 cs

/-- Go's `bytes.Replace(s, old, new, -1)`: replace every non-overlapping
occurrence of `old` in `s` by `new`; an empty `old` matches before every
character and at the end. -/
def bytesReplace (s old new : List Char) : List Char :=
  if old = [] then new ++ (s.map fun c => c :: new).flatten
  else replaceAux old new 0 s

/-- Index of the last `'\"'` before the first newline of the list, if any.
This is where the greedy `.*\"` of the marker regular expression ends, since
`.` does not match a newline and `.*` is maximal. -/
def lastQuoteIdx : List Char → Option Nat
  | [] => none
  | c :: cs =>
    if c = '\n' then none
    else
      match lastQuoteIdx cs with
      | some n => some (n + 1)
      | none => if c = '\"' then some 0 else none

/-- Scan of `regexp.MustCompile("// import \x22.*\x22").ReplaceAll(s, [])`:
at each position, a match starts with `markerLit` and extends greedily to the
last quote on the same line; a match is deleted and scanning resumes after
it. The first argument counts characters of a recognised match still to be
consumed. -/
def stripAux : Nat → List Char → List Char
  | _, [] => []
  | Nat.succ n, _ :: cs => stripAux n cs
  | 0, c :: cs =>
    if markerLit.isPrefixOf (c :: cs) then
      match lastQuoteIdx ((c :: cs).drop 11) with
      | some n => stripAux (11 + n) cs
      | none => c :: stripAux 0 cs
    else
      c :: stripAux 0 cs

/-- Removal of every self-declaration marker `// import "..."` from a file,
as performed by the embedding mode's regular-expression pass. -/
def stripMarkers (s : List Char) : List Char := stripAux 0 s

/-- The rewrite map, as the list of its entries: retired reference string
paired with its replacement reference string. -/
abbrev Rewrite := List (List Char × List Char)

/-- The embedding mode's key-substitution loop over one file: for every map
entry replace `"key` (the key preceded by the quote that opens an import
literal) with `"value`. -/
def rewriteKeysEmbed (rw : Rewrite) (blob : List Char) : List Char :=
  rw.foldl (fun b kv => bytesReplace b ('\"' :: kv.1) ('\"' :: kv.2)) blob

/-- The simple mode's key-substitution loop over one file: for every map
entry replace every raw occurrence of the key, with no delimiter check. -/
def rewritePassSimple (rw : Rewrite) (blob : List Char) : List Char :=
  rw.foldl (fun b kv => bytesReplace b kv.1 kv.2) blob

/-- The fork substitution of the embedding mode: replace `"root/` with
`"fork/`, then `"root"` with `"fork"`. -/
def forkPass (root fork blob : List Char) : List Char :=
  bytesReplace
    (bytesReplace blob ('\"' :: root ++ ['/']) ('\"' :: fork ++ ['/']))
    ('\"' :: root ++ ['\"']) ('\"' :: fork ++ ['\"'])

/-- The embedding mode's whole per-file transformation: quoted key
substitution, then (when a fork identity was supplied, i.e. is nonempty) the
fork substitution, then marker stripping. -/
def rewritePassEmbed (rw : Rewrite) (root fork blob : List Char) : List Char :=
  let keyed := rewriteKeysEmbed rw blob
  let forked := if fork = [] then keyed else forkPass root fork keyed
  stripMarkers forked

/-- Go's `strings.HasPrefix`, on the character data of the strings. -/
def strStartsWith (pre s : String) : Bool := pre.data.isPrefixOf s.data

/-- Go's `strings.HasSuffix`, on the character data of the strings. -/
def strEndsWith (suf s : String) : Bool := suf.data.isSuffixOf s.data

/-- One step of the tree walk in the embedding mode: a file is transformed
exactly when its name ends in `.go`, and left untouched otherwise. -/
def walkFileEmbed (rw : Rewrite) (root fork : List Char) (name : String)
    (content : List Char) : List Char :=
  if strEndsWith ".go" name then rewritePassEmbed rw root fork content else content

/-- One step of the tree walk in the simple mode: a file is transformed
exactly when its name ends in `.go`, and left untouched otherwise. -/
def walkFileSimple (rw : Rewrite) (name : String) (content : List Char) : List Char :=
  if strEndsWith ".go" name then rewritePassSimple rw content else content

/-- Placement decision of the simple mode for one package. -/
inductive SimplePlacement where
  | leaveHashed
  | vendorCanonical
deriving DecidableEq

/-- Per-package planning of the simple mode: a clash count above one leaves
the package at its hash location with no rewrite contribution; otherwise the
package is vendored canonically and each first-level directory contributes a
`gx/ipfs/<hash>/<dir> ↦ <path>` entry. -/
def planSimple (versions : String → Nat) (hash path : String)
    (dirs : List String) : SimplePlacement × List (String × String) :=
  if versions path > 1 then
    (SimplePlacement.leaveHashed, [])
  else
    (SimplePlacement.vendorCanonical,
      dirs.map fun d => ("gx/ipfs/" ++ hash ++ "/" ++ d, path))

/-- Placement decision of the embedding mode for one package. -/
inductive EmbedPlacement where
  | hashEmbed
  | embedCanonical
  | inlineVendor
deriving DecidableEq

/-- Per-package planning of the embedding mode: a clash count above one moves
the package to the hash-keyed embed location `gxlibs/ipfs/<hash>` and maps
`gx/ipfs/<hash>` to `<root>/gxlibs/ipfs/<hash>`; otherwise the probe decides
between canonical embedding (two entries per directory: the hash reference
and the bare canonical path both map to the embed path) and plain vendoring
(one entry per directory mapping the hash reference to the canonical path). -/
def planEmbed (versions : String → Nat) (embedProbe : Bool)
    (root hash path : String) (dirs : List String) :
    EmbedPlacement × List (String × String) :=
  if versions path > 1 then
    (EmbedPlacement.hashEmbed,
      [("gx/ipfs/" ++ hash, root ++ "/gxlibs/ipfs/" ++ hash)])
  else if embedProbe then
    (EmbedPlacement.embedCanonical,
      (dirs.map fun d =>
        [("gx/ipfs/" ++ hash ++ "/" ++ d, root ++ "/gxlibs/" ++ path),
         (path, root ++ "/gxlibs/" ++ path)]).flatten)
  else
    (EmbedPlacement.inlineVendor,
      dirs.map fun d => ("gx/ipfs/" ++ hash ++ "/" ++ d, path))

/-- Outcome of the HTTP existence probe against the raw-content endpoint. -/
inductive ProbeResult where
  | response (status : Nat)
  | transportError
deriving DecidableEq

/-- The `shouldEmbed` decision of the embedding mode. For a `github.com/`
path the raw-content probe decides: a transport error embeds (fail-safe), a
response embeds exactly on status 200. Otherwise `go get` materialises the
canonical source into the disposable workspace: the package is vendored
(`false`) exactly when that succeeds and no `package.json` is found at the
materialised root; any failure or a found descriptor embeds. -/
def shouldEmbed (probe : ProbeResult) (goGetOk descriptorFound : Bool)
    (path : String) : Bool :=
  if strStartsWith "github.com/" path then
    match probe with
    | ProbeResult.transportError => true
    | ProbeResult.response status => status == 200
  else
    if goGetOk && !descriptorFound then false else true

/-- Structured-data values of the descriptor format (JSON). -/
inductive Json where
  | null
  | bool (b : Bool)
  | num (n : Int)
  | str (s : String)
  | arr (items : List Json)
  | obj (fields : List (String × Json))

/-- Extraction of the canonical path from a parsed descriptor, following
`json.Unmarshal` into the nested struct with tags `gx` and `dvcsimport`:
a missing key or an explicit null leaves the zero value (the empty string),
while a value of the wrong shape is an unmarshalling error (`none`).
Descriptor objects are keyed by their first binding for a name. -/
def unmarshalPkg : Json → Option String
  | Json.null => some ""
  | Json.obj fields =>
    match fields.lookup "gx" with
    | none => some ""
    | some Json.null => some ""
    | some (Json.obj gxFields) =>
      match gxFields.lookup "dvcsimport" with
      | none => some ""
      | some Json.null => some ""
      | some (Json.str s) => some s
      | some _ => none
    | some _ => none
  | _ => none

/-- Outcome of reading one origin-identifier directory's manifest. -/
inductive ManifestOutcome where
  | fatalList
  | panicIndex
  | fatalRead
  | fatalParse
  | ok (canonicalPath : String)
deriving DecidableEq

/-- The manifest-reading step for one origin-identifier directory.
`listing` is the `ReadDir` outcome (`none` is a listing failure), and
`readPkgFile d` is the outcome of reading and parsing `d/package.json`
(`none` is a read failure, `some none` an unparseable file). The source
indexes `dirs[0]` without a guard, so an empty listing is the Go runtime's
index-out-of-range panic, recorded here as `panicIndex`. -/
def readManifest (listing : Option (List String))
    (readPkgFile : String → Option (Option Json)) : ManifestOutcome :=
  match listing with
  | none => ManifestOutcome.fatalList
  | some dirs =>
    match dirs.head? with
    | none => ManifestOutcome.panicIndex
    | some d =>
      match readPkgFile d with
      | none => ManifestOutcome.fatalRead
      | some none => ManifestOutcome.fatalParse
      | some (some doc) =>
        match unmarshalPkg doc with
        | none => ManifestOutcome.fatalParse
        | some p => ManifestOutcome.ok p

/-! ### Shared lemmas about the replacement scans -/

/-- After a match is recognised, exactly its remaining characters are
consumed before plain scanning resumes. -/
theorem replaceAux_skip (p r xs t : List Char) :
    replaceAux p r xs.length (xs ++ t) = replaceAux p r 0 t := by
  induction xs with
  | nil => rfl
  | cons x xs ih =>
    simp only [List.length_cons, List.cons_append, replaceAux]
    exact ih

/-- A pattern that does not occur in the scanned list leaves it unchanged. -/
theorem replaceAux_no_match {p : List Char} (r : List Char) {s : List Char}
    (h : ¬ p <:+: s) : replaceAux p r 0 s = s := by
  induction s with
  | nil => rfl
  | cons c cs ih =>
    have hcond : ¬ (p ≠ [] ∧ p.isPrefixOf (c :: cs)) := by
      rintro ⟨-, hp⟩
      exact h (List.isPrefixOf_iff_prefix.mp hp).isInfix
    simp only [replaceAux, if_neg hcond]
    rw [ih fun hc => h (List.infix_cons hc)]

/-- `bytes.Replace` with an absent pattern is the identity. -/
theorem bytesReplace_no_match {s p : List Char} (r : List Char)
    (h : ¬ p <:+: s) : bytesReplace s p r = s := by
  have hp : p ≠ [] := by rintro rfl; exact h List.nil_infix
  rw [bytesReplace, if_neg hp, replaceAux_no_match r h]

/-- A match at the head of the list is replaced and scanning resumes after it. -/
theorem replaceAux_head (p r t : List Char) (hp : p ≠ []) :
    replaceAux p r 0 (p ++ t) = r ++ replaceAux p r 0 t := by
  match p, hp with
  | a :: as, _ =>
    have hcond : (a :: as) ≠ [] ∧ (a :: as).isPrefixOf (a :: (as ++ t)) :=
      ⟨by simp, List.isPrefixOf_iff_prefix.mpr (List.prefix_append _ _)⟩
    rw [List.cons_append, replaceAux, if_pos hcond]
    simp [replaceAux_skip]

/-- `bytes.Replace` of a head occurrence of the pattern, when no further
occurrence follows. -/
theorem bytesReplace_head (p r t : List Char) (hp : p ≠ []) (ht : ¬ p <:+: t) :
    bytesReplace (p ++ t) p r = r ++ t := by
  rw [bytesReplace, if_neg hp, replaceAux_head p r t hp, replaceAux_no_match r ht]

/-- After a marker match is recognised, exactly its remaining characters are
consumed before plain scanning resumes. -/
theorem stripAux_skip (xs t : List Char) :
    stripAux xs.length (xs ++ t) = stripAux 0 t := by
  induction xs with
  | nil => rfl
  | cons x xs ih =>
    simp only [List.length_cons, List.cons_append, stripAux]
    exact ih

/-- Content without the marker literal has no marker match and passes
through the stripping scan unchanged. -/
theorem stripAux_no_match {s : List Char} (h : ¬ markerLit <:+: s) :
    stripAux 0 s = s := by
  induction s with
  | nil => rfl
  | cons c cs ih =>
    have hcond : ¬ markerLit.isPrefixOf (c :: cs) = true := fun hp =>
      h (List.isPrefixOf_iff_prefix.mp hp).isInfix
    simp only [stripAux, if_neg hcond]
    rw [ih fun hc => h (List.infix_cons hc)]

/-- The greedy extension of a marker match over a quote-free, newline-free
stretch ends exactly at the closing quote, provided the quote ends its line. -/
theorem lastQuoteIdx_block (p B : List Char)
    (hp : ∀ x ∈ p, x ≠ '\"' ∧ x ≠ '\n')
    (hB : B = [] ∨ B.head? = some '\n') :
    lastQuoteIdx (p ++ '\"' :: B) = some p.length := by
  induction p with
  | nil =>
    have hBnone : lastQuoteIdx B = none := by
      rcases hB with h | h
      · rw [h]; rfl
      · cases B with
        | nil => rfl
        | cons b bs =>
          have hb : b = '\n' := by simpa using h
          simp [lastQuoteIdx, hb]
    simp [lastQuoteIdx, hBnone]
  | cons x xs ih =>
    have hx := hp x (by simp)
    have ihx := ih fun y hy => hp y (by simp [hy])
    simp [lastQuoteIdx, hx.2, ihx]

/-- A whole marker block (marker literal, quote-free path, closing quote at
end of line) is deleted by the stripping scan, which then resumes at the
following content. -/
theorem stripAux_block (p B : List Char)
    (hp : ∀ x ∈ p, x ≠ '\"' ∧ x ≠ '\n')
    (hB : B = [] ∨ B.head? = some '\n') :
    stripAux 0 (markerLit ++ (p ++ '\"' :: B)) = stripAux 0 B := by
  have hpre : markerLit.isPrefixOf (markerLit ++ (p ++ '\"' :: B)) = true :=
    List.isPrefixOf_iff_prefix.mpr (List.prefix_append _ _)
  have hq : lastQuoteIdx ((markerLit ++ (p ++ '\"' :: B)).drop 11) = some p.length := by
    rw [List.drop_left' (by rfl : markerLit.length = 11)]
    exact lastQuoteIdx_block p B hp hB
  show stripAux 0 ('/' :: (['/', ' ', 'i', 'm', 'p', 'o', 'r', 't', ' ', '\"'] ++
    (p ++ '\"' :: B))) = stripAux 0 B
  have hpre' : markerLit.isPrefixOf ('/' :: (['/', ' ', 'i', 'm', 'p', 'o', 'r', 't', ' ',
      '\"'] ++ (p ++ '\"' :: B))) = true := hpre
  rw [stripAux, if_pos hpre']
  have hq' : lastQuoteIdx (('/' :: (['/', ' ', 'i', 'm', 'p', 'o', 'r', 't', ' ', '\"'] ++
      (p ++ '\"' :: B))).drop 11) = some p.length := hq
  rw [hq']
  have hsplit : ['/', ' ', 'i', 'm', 'p', 'o', 'r', 't', ' ', '\"'] ++ (p ++ '\"' :: B) =
      (['/', ' ', 'i', 'm', 'p', 'o', 'r', 't', ' ', '\"'] ++ p ++ ['\"']) ++ B := by
    simp
  have hlen : 11 + p.length =
      (['/', ' ', 'i', 'm', 'p', 'o', 'r', 't', ' ', '\"'] ++ p ++ ['\"']).length := by
    simp
    omega
  rw [hsplit]
  show stripAux (11 + p.length)
      ((['/', ' ', 'i', 'm', 'p', 'o', 'r', 't', ' ', '\"'] ++ p ++ ['\"']) ++ B) =
    stripAux 0 B
  rw [hlen, stripAux_skip]

/-- A prefix of an appended list is a prefix of the left part, or extends
the left part into the right one. -/
theorem prefix_append_split {p A Y : List Char} (h : p <+: A ++ Y) :
    p <+: A ∨ (A <+: p ∧ p.drop A.length <+: Y) := by
  rcases le_or_lt p.length A.length with hlen | hlen
  · left
    rw [List.prefix_iff_eq_take, List.take_append_of_le_length hlen] at h
    have htp := List.take_prefix p.length A
    rw [← h] at htp
    exact htp
  · right
    obtain ⟨t, ht⟩ := h
    have h1 : (p ++ t).take A.length = (A ++ Y).take A.length := by rw [ht]
    rw [List.take_append_of_le_length (Nat.le_of_lt hlen), List.take_left] at h1
    have h2 : (p ++ t).drop A.length = (A ++ Y).drop A.length := by rw [ht]
    rw [List.drop_append_of_le_length (Nat.le_of_lt hlen), List.drop_left] at h2
    exact ⟨h1 ▸ List.take_prefix A.length p, ⟨t, h2⟩⟩

/-- A short enough prefix of an appended list is a prefix of the left
part alone. -/
theorem prefix_of_prefix_append {p A Y : List Char} (h : p <+: A ++ Y)
    (hlen : p.length ≤ A.length) : p <+: A := by
  rcases prefix_append_split h with h1 | ⟨hq, -⟩
  · exact h1
  · have heq : A = p := hq.sublist.eq_of_length (Nat.le_antisymm hq.length_le hlen)
    rw [heq]

/-- The marker literal has no nonempty proper border: none of its proper
suffixes is also one of its prefixes. -/
theorem markerLit_no_border :
    ∀ k, k < 11 → 0 < k → markerLit.drop k ≠ markerLit.take (11 - k) := by decide

/-- A marker match cannot start inside content that does not contain the
marker literal, not even overlapping into a literal that follows it. -/
theorem markerLit_not_prefix_cons (a : Char) (A' X : List Char)
    (hA : ¬ markerLit <:+: (a :: A')) :
    markerLit.isPrefixOf (a :: (A' ++ (markerLit ++ X))) = false := by
  rw [Bool.eq_false_iff]
  intro htrue
  have hpre : markerLit <+: (a :: A') ++ (markerLit ++ X) :=
    List.isPrefixOf_iff_prefix.mp htrue
  rcases prefix_append_split hpre with hleft | ⟨hAp, hdrop⟩
  · exact hA hleft.isInfix
  · have hm11 : markerLit.length = 11 := rfl
    have hlen : (a :: A').length ≤ 11 := hm11 ▸ hAp.length_le
    rcases Nat.lt_or_ge (a :: A').length 11 with hlt | hge
    · have hk0 : 0 < (a :: A').length := by simp
      have hdlen : (markerLit.drop (a :: A').length).length ≤ markerLit.length := by
        rw [List.length_drop]
        omega
      have hdpre : markerLit.drop (a :: A').length <+: markerLit :=
        prefix_of_prefix_append hdrop hdlen
      have hborder : markerLit.drop (a :: A').length =
          markerLit.take (11 - (a :: A').length) := by
        have h0 := List.prefix_iff_eq_take.mp hdpre
        rw [List.length_drop, hm11] at h0
        exact h0
      exact markerLit_no_border _ hlt hk0 hborder
    · have h11 : (a :: A').length = 11 := Nat.le_antisymm hlen hge
      have heq : a :: A' = markerLit :=
        hAp.sublist.eq_of_length (h11.trans hm11.symm)
      exact hA (heq ▸ List.infix_refl markerLit)

/-- Content that contains no marker literal is copied unchanged by the
stripping scan up to a following marker literal: the leftmost marker match
begins at that literal. -/
theorem stripAux_append_before_marker (A X : List Char) (hA : ¬ markerLit <:+: A) :
    stripAux 0 (A ++ (markerLit ++ X)) = A ++ stripAux 0 (markerLit ++ X) := by
  induction A with
  | nil => rfl
  | cons a A' ih =>
    have hfalse := markerLit_not_prefix_cons a A' X hA
    have ihe := ih fun hc => hA (List.infix_cons hc)
    simp only [List.cons_append]
    generalize hY : markerLit ++ X = Y
    rw [hY] at hfalse ihe
    rw [stripAux, if_neg (Bool.eq_false_iff.mp hfalse), ihe]

/-- If no quoted occurrence of any key of the map is present, the embedding
mode's key-substitution loop leaves the file unchanged. -/
theorem rewriteKeysEmbed_of_no_quoted (rw : Rewrite) (blob : List Char)
    (h : ∀ kv ∈ rw, ¬ ('\"' :: kv.1) <:+: blob) :
    rewriteKeysEmbed rw blob = blob := by
  induction rw with
  | nil => rfl
  | cons kv rest ih =>
    unfold rewriteKeysEmbed at ih ⊢
    simp only [List.foldl_cons]
    rw [bytesReplace_no_match _ (h kv (by simp))]
    exact ih fun kv' hm => h kv' (by simp [hm])

/-- If neither quoted root token occurs, the fork substitution leaves the
file unchanged. -/
theorem forkPass_of_no_token (root fork blob : List Char)
    (h1 : ¬ ('\"' :: root ++ ['/']) <:+: blob)
    (h2 : ¬ ('\"' :: root ++ ['\"']) <:+: blob) :
    forkPass root fork blob = blob := by
  rw [forkPass, bytesReplace_no_match _ h1, bytesReplace_no_match _ h2]

/-! ### Claim C1: collision handling -/

/-- C1: a package whose canonical path clashes (version tally above one) is
left at its hash location with no rewrite contribution in the simple mode,
while the embedding mode hash-embeds it and maps its hash reference
`gx/ipfs/<hash>` to the hash-keyed embed path `<root>/gxlibs/ipfs/<hash>`. -/
theorem collision_members_policy (versions : String → Nat) (probe : Bool)
    (root hash path : String) (dirs : List String) (h : versions path > 1) :
    planSimple versions hash path dirs = (SimplePlacement.leaveHashed, []) ∧
    planEmbed versions probe root hash path dirs =
      (EmbedPlacement.hashEmbed,
        [("gx/ipfs/" ++ hash, root ++ "/gxlibs/ipfs/" ++ hash)]) := by
  constructor
  · unfold planSimple
    rw [if_pos h]
  · unfold planEmbed
    rw [if_pos h]

/-- Witness for C1 at a concrete clashing package. -/
theorem collision_members_policy_witness :
    planSimple (fun _ => 2) "Qm1" "github.com/x/y" ["y"] =
      (SimplePlacement.leaveHashed, []) ∧
    planEmbed (fun _ => 2) true "github.com/me/proj" "Qm1" "github.com/x/y" ["y"] =
      (EmbedPlacement.hashEmbed,
        [("gx/ipfs/" ++ "Qm1", "github.com/me/proj" ++ "/gxlibs/ipfs/" ++ "Qm1")]) :=
  collision_members_policy (fun _ => 2) true "github.com/me/proj" "Qm1"
    "github.com/x/y" ["y"] (by decide)

/-! ### Claim C2: quote-delimited key matching -/

/-- C2 counterexample: in the simple mode an occurrence of a rewrite key
that is not preceded by a double quote is replaced all the same, so the
claim that every mode replaces only quoted reference tokens is false. -/
theorem simple_mode_rewrites_unquoted :
    rewritePassSimple [("gx/a".data, "z".data)] "import gx/a x".data =
      "import z x".data ∧
    "import z x".data ≠ "import gx/a x".data := by decide

/-- C2 amended: the embedding mode replaces a key only as a quoted reference
token: content without a quote-preceded occurrence of any key is left
unchanged, whatever unquoted occurrences it holds. The simple mode, in
contrast, substitutes raw occurrences (see the counterexample). -/
theorem embed_rewriter_only_quoted_keys (rw : Rewrite) (blob : List Char)
    (h : ∀ kv ∈ rw, ¬ ('\"' :: kv.1) <:+: blob) :
    rewriteKeysEmbed rw blob = blob :=
  rewriteKeysEmbed_of_no_quoted rw blob h

/-- Witness for the C2 amended theorem: an unquoted occurrence of the key
`gx/a` survives the embedding mode's key substitution. -/
theorem embed_rewriter_only_quoted_keys_witness :
    rewriteKeysEmbed [("gx/a".data, "z".data)] "import gx/a x".data =
      "import gx/a x".data :=
  embed_rewriter_only_quoted_keys [("gx/a".data, "z".data)] "import gx/a x".data
    (by decide)

/-! ### Claim C3: self-declaration marker stripping -/

/-- C3 counterexample: the claim fails in both of its parts. The simple
mode removes no self-declaration marker: a file holding exactly the marker
passes through its rewriter unchanged. And the embedding mode does not
remove exactly the marker text: on `x // import "a" y "b" z` the greedy
match extends to the last quote of the line, deleting ` y "b"` as well, so
the output differs from the removal of the marker text alone. -/
theorem marker_rule_counterexample :
    rewritePassSimple [] (markerLit ++ "github.com/orig/proj".data ++ ['\"']) =
      markerLit ++ "github.com/orig/proj".data ++ ['\"'] ∧
    markerLit <:+: (markerLit ++ "github.com/orig/proj".data ++ ['\"']) ∧
    rewritePassEmbed [] [] [] "x // import \"a\" y \"b\" z".data = "x  z".data ∧
    "x  z".data ≠ "x  y \"b\" z".data :=
  ⟨rfl, by decide, by decide, by decide⟩

/-- C3 amended: only the embedding mode strips self-declaration markers (the
simple mode never does). There the marker rule is the final stage of the
per-file pass, applied to the substituted content whatever the rewrite map
and the fork identity did to the file: whenever that substituted content
consists of a marker-free part, a marker literal, a quote-and-newline-free
path and the closing quote ending its line, the whole marker block — and
nothing before it — is deleted, greedily through the last quote of its line
(so a marker line with further quoted text loses everything up to the final
quote, see the counterexample), and stripping continues on the rest. -/
theorem embed_mode_strips_marker (rw : Rewrite) (root fork blob A p B : List Char)
    (hA : ¬ markerLit <:+: A)
    (hp : ∀ x ∈ p, x ≠ '\"' ∧ x ≠ '\n')
    (hB : B = [] ∨ B.head? = some '\n')
    (hsub : (if fork = [] then rewriteKeysEmbed rw blob
        else forkPass root fork (rewriteKeysEmbed rw blob)) =
      A ++ (markerLit ++ (p ++ '\"' :: B))) :
    rewritePassEmbed rw root fork blob = A ++ stripMarkers B := by
  show stripMarkers (if fork = [] then rewriteKeysEmbed rw blob
    else forkPass root fork (rewriteKeysEmbed rw blob)) = A ++ stripMarkers B
  rw [hsub]
  unfold stripMarkers
  rw [stripAux_append_before_marker A _ hA, stripAux_block p B hp hB]

/-- Witness for the C3 amended theorem: a key of the map matches in the
file and a fork identity is supplied, yet the marker for path `old` is
removed behind the untouched, rewritten head `y "a/b"` of the file. -/
theorem embed_mode_strips_marker_witness :
    rewritePassEmbed [("gx/ipfs/Qm/x".data, "a/b".data)] "r".data "f".data
        "y \"gx/ipfs/Qm/x\"\n// import \"old\"".data =
      "y \"a/b\"\n".data ++ stripMarkers [] :=
  embed_mode_strips_marker [("gx/ipfs/Qm/x".data, "a/b".data)] "r".data "f".data
    "y \"gx/ipfs/Qm/x\"\n// import \"old\"".data "y \"a/b\"\n".data "old".data []
    (by decide) (by decide) (Or.inl rfl) (by decide)

/-! ### Claim C4: the hosting-prefix probe -/

/-- C4 counterexample: status 201 is a 200-class response, yet the probe
classifies the package as InlineVendor (`shouldEmbed` is `false`), not as
Embed, so classification is not by the 200 class. -/
theorem probe_status_201_vendors :
    shouldEmbed (ProbeResult.response 201) true true "github.com/x/y" = false ∧
    200 ≤ 201 ∧ 201 < 300 := by decide

/-- C4 amended: for a `github.com/` path the probe classifies Embed exactly
on response status 200 (not on the whole 200 class), InlineVendor on any
other status, and Embed on a transport error (the fail-safe case). -/
theorem probe_github_embeds_iff_200 (status : Nat) (goGetOk descriptorFound : Bool)
    (path : String) (h : strStartsWith "github.com/" path = true) :
    (shouldEmbed (ProbeResult.response status) goGetOk descriptorFound path = true ↔
      status = 200) ∧
    shouldEmbed ProbeResult.transportError goGetOk descriptorFound path = true := by
  constructor
  · simp [shouldEmbed, h]
  · simp [shouldEmbed, h]

/-- Witness for the C4 amended theorem at a concrete GitHub path. -/
theorem probe_github_embeds_iff_200_witness :
    (shouldEmbed (ProbeResult.response 200) true true "github.com/a/b" = true ↔
      (200 : Nat) = 200) ∧
    shouldEmbed ProbeResult.transportError true true "github.com/a/b" = true :=
  probe_github_embeds_iff_200 200 true true "github.com/a/b" (by decide)

/-! ### Claim C5: empty origin-identifier directory -/

/-- C5: the source indexes the first listed subdirectory without a guard, so
an origin-identifier directory with an empty listing reaches the Go
runtime's index-out-of-range panic instead of the reported ManifestMissing
failure the specification promises. -/
theorem empty_listing_panics (readPkgFile : String → Option (Option Json)) :
    readManifest (some []) readPkgFile = ManifestOutcome.panicIndex := rfl

/-! ### Claim C6: descriptor lacking the canonical-path field -/

/-- C6 counterexample: a descriptor that parses as the empty JSON object
(valid structured data lacking the canonical-path field) yields a
descriptor with the empty canonical path instead of a malformed-manifest
failure. -/
theorem missing_field_yields_descriptor :
    readManifest (some ["v1"]) (fun _ => some (some (Json.obj []))) =
      ManifestOutcome.ok "" ∧
    ManifestOutcome.ok "" ≠ ManifestOutcome.fatalParse :=
  ⟨rfl, by decide⟩

/-- C6 amended: a descriptor that parses but lacks the canonical-path field
(no `gx` binding, or a `gx` object without `dvcsimport`) produces a
descriptor whose canonical path is the empty string; the malformed-manifest
failure arises only from a parse failure or a field of the wrong shape. -/
theorem missing_field_gives_empty_path (d : String) (rest : List String)
    (readPkgFile : String → Option (Option Json)) (fields : List (String × Json))
    (hread : readPkgFile d = some (some (Json.obj fields)))
    (hfield : fields.lookup "gx" = none ∨
      ∃ gxFields, fields.lookup "gx" = some (Json.obj gxFields) ∧
        gxFields.lookup "dvcsimport" = none) :
    readManifest (some (d :: rest)) readPkgFile = ManifestOutcome.ok "" := by
  simp only [readManifest, List.head?_cons, hread]
  rcases hfield with hnone | ⟨gxFields, hgx, hpath⟩
  · simp [unmarshalPkg, hnone]
  · simp [unmarshalPkg, hgx, hpath]

/-- Witness for the C6 amended theorem at a descriptor with an empty `gx`
object. -/
theorem missing_field_gives_empty_path_witness :
    readManifest (some ["v1"])
        (fun _ => some (some (Json.obj [("gx", Json.obj [])]))) =
      ManifestOutcome.ok "" :=
  missing_field_gives_empty_path "v1" [] _ [("gx", Json.obj [])] rfl
    (Or.inr ⟨[], rfl, rfl⟩)

/-! ### Claim C7: idempotence of the rewrite pass -/

/-- C7 counterexample: with the empty rewrite map (the map of a run with no
dependencies), root identity `r` and fork identity `r/y`, the content
`"r/a` rewrites to `"r/y/a` and a second pass rewrites that again to
`"r/y/y/a`: the per-file pass is not idempotent as claimed. -/
theorem rewrite_pass_not_idempotent :
    rewritePassEmbed [] "r".data "r/y".data
        (rewritePassEmbed [] "r".data "r/y".data "\"r/a".data) ≠
      rewritePassEmbed [] "r".data "r/y".data "\"r/a".data := by decide

/-- C7 amended: the pass is idempotent exactly when nothing remains to
match: if the once-rewritten content has no quoted occurrence of any key, no
quoted root token (when a fork is supplied) and no marker literal, the
second pass returns it unchanged. The unconditional claim fails, for
instance when the fork identity extends the root identity by a
slash-separated suffix (see the counterexample). -/
theorem rewrite_pass_idempotent_when_clean (rw : Rewrite) (root fork c : List Char)
    (h1 : ∀ kv ∈ rw, ¬ ('\"' :: kv.1) <:+: rewritePassEmbed rw root fork c)
    (h2 : fork ≠ [] →
      ¬ ('\"' :: root ++ ['/']) <:+: rewritePassEmbed rw root fork c ∧
      ¬ ('\"' :: root ++ ['\"']) <:+: rewritePassEmbed rw root fork c)
    (h3 : ¬ markerLit <:+: rewritePassEmbed rw root fork c) :
    rewritePassEmbed rw root fork (rewritePassEmbed rw root fork c) =
      rewritePassEmbed rw root fork c := by
  generalize hd : rewritePassEmbed rw root fork c = d at h1 h2 h3
  show stripMarkers (if fork = [] then rewriteKeysEmbed rw d else
    forkPass root fork (rewriteKeysEmbed rw d)) = d
  rw [rewriteKeysEmbed_of_no_quoted rw d h1]
  by_cases hf : fork = []
  · rw [if_pos hf]
    exact stripAux_no_match h3
  · rw [if_neg hf, forkPass_of_no_token root fork d (h2 hf).1 (h2 hf).2]
    exact stripAux_no_match h3

/-- Witness for the C7 amended theorem: once `"gx/ipfs/Qm/x"` has been
rewritten to `"a"`, a second pass changes nothing. -/
theorem rewrite_pass_idempotent_witness :
    rewritePassEmbed [("gx/ipfs/Qm/x".data, "a".data)] "r".data []
        (rewritePassEmbed [("gx/ipfs/Qm/x".data, "a".data)] "r".data []
          "\"gx/ipfs/Qm/x\"".data) =
      rewritePassEmbed [("gx/ipfs/Qm/x".data, "a".data)] "r".data []
        "\"gx/ipfs/Qm/x\"".data :=
  rewrite_pass_idempotent_when_clean [("gx/ipfs/Qm/x".data, "a".data)] "r".data []
    "\"gx/ipfs/Qm/x\"".data (by decide) (fun h => absurd rfl h) (by decide)

/-! ### Claim C8: exactness of the fork substitution -/

/-- C8: the fork substitution touches only exact quoted root tokens: content
without a quoted root token — for instance one whose tokens merely share a
prefix with the root — is left unchanged, while an exact quoted root token
followed by a slash-separated subpath is rewritten to the fork identity. -/
theorem fork_exact_token_only (root fork s blob : List Char)
    (hb1 : ¬ ('\"' :: root ++ ['/']) <:+: blob)
    (hb2 : ¬ ('\"' :: root ++ ['\"']) <:+: blob)
    (hs : ¬ ('\"' :: root ++ ['/']) <:+: s)
    (hres : ¬ ('\"' :: root ++ ['\"']) <:+: ('\"' :: fork ++ '/' :: s)) :
    forkPass root fork blob = blob ∧
    forkPass root fork ('\"' :: root ++ '/' :: s) = '\"' :: fork ++ '/' :: s := by
  constructor
  · exact forkPass_of_no_token root fork blob hb1 hb2
  · have hsplit : ('\"' :: root ++ '/' :: s) = ('\"' :: root ++ ['/']) ++ s := by simp
    unfold forkPass
    rw [hsplit, bytesReplace_head _ _ _ (by simp) hs]
    have hjoin : ('\"' :: fork ++ ['/']) ++ s = '\"' :: fork ++ '/' :: s := by simp
    rw [hjoin, bytesReplace_no_match _ hres]

/-- Witness for C8: with root `github.com/a/b`, the token
`github.com/a/bee` is untouched and `"github.com/a/b/sub"` becomes
`"github.com/me/fork/sub"`. -/
theorem fork_exact_token_only_witness :
    forkPass "github.com/a/b".data "github.com/me/fork".data
        "x \"github.com/a/bee\" y".data = "x \"github.com/a/bee\" y".data ∧
    forkPass "github.com/a/b".data "github.com/me/fork".data
        ('\"' :: "github.com/a/b".data ++ '/' :: "sub\"".data) =
      '\"' :: "github.com/me/fork".data ++ '/' :: "sub\"".data :=
  fork_exact_token_only "github.com/a/b".data "github.com/me/fork".data
    "sub\"".data "x \"github.com/a/bee\" y".data
    (by decide) (by decide) (by decide) (by decide)

/-! ### Claim C9: the materialisation fallback probe -/

/-- C9: for a path without the well-known hosting prefix, the fallback probe
vendors (`shouldEmbed` is `false`) exactly when the workspace
materialisation succeeds and no descriptor file is found at its root; any
materialisation failure or a present descriptor embeds. -/
theorem fallback_probe_vendor_iff (probe : ProbeResult)
    (goGetOk descriptorFound : Bool) (path : String)
    (h : strStartsWith "github.com/" path = false) :
    (shouldEmbed probe goGetOk descriptorFound path = false ↔
      goGetOk = true ∧ descriptorFound = false) := by
  unfold shouldEmbed
  rw [if_neg (by simp [h])]
  cases goGetOk <;> cases descriptorFound <;> simp

/-- Witness for C9 at a concrete non-GitHub path. -/
theorem fallback_probe_vendor_iff_witness :
    (shouldEmbed (ProbeResult.response 404) true false "example.org/x" = false ↔
      true = true ∧ false = false) :=
  fallback_probe_vendor_iff (ProbeResult.response 404) true false "example.org/x"
    (by decide)

/-! ### Claim C10: only Go files are rewritten -/

/-- C10: a file whose name does not end in `.go` is left byte-for-byte
unchanged by the tree walk of both modes. -/
theorem non_go_files_untouched (rw : Rewrite) (root fork : List Char)
    (name : String) (content : List Char)
    (h : strEndsWith ".go" name = false) :
    walkFileEmbed rw root fork name content = content ∧
    walkFileSimple rw name content = content := by
  constructor
  · unfold walkFileEmbed
    rw [if_neg (by simp [h])]
  · unfold walkFileSimple
    rw [if_neg (by simp [h])]

/-- Witness for C10 at a concrete non-Go file name. -/
theorem non_go_files_untouched_witness :
    walkFileEmbed [] [] [] "README.md" "hello gx/ipfs/Qm".data =
      "hello gx/ipfs/Qm".data ∧
    walkFileSimple [] "README.md" "hello gx/ipfs/Qm".data =
      "hello gx/ipfs/Qm".data :=
  non_go_files_untouched [] [] [] "README.md" "hello gx/ipfs/Qm".data (by decide)

end Ungx
